import Mathlib

/-!
Verification development for the codemap C call-graph indexer
(`codemap-indexer/analyze_folder_callsites.py`).

The indexer walks a directory tree, parses each `.c`/`.h` file into a
concrete syntax tree (via an external tree-sitter front end), extracts
function definitions and call expressions, and builds four maps
(definitions, outgoing calls, outgoing call sites, incoming call sites)
plus run statistics and a per-file error log.

This file gives a shallow embedding of that program: the syntax tree is
an explicit inductive, the external parse is part of the input (a file
either fails to read, fails to parse, or yields a tree), Python dicts
with insertion order become association lists, and `defaultdict(list)`
appends become `apush`.
-/

set_option maxRecDepth 4000

/-! ## Syntax-tree model

A tree-sitter node has a type tag, a start/end point (row, column), a
start/end byte offset, and an ordered list of children, each optionally
carrying a field name (`child_by_field_name` retrieves the first child
with the given field name; plain iteration sees all children). -/

mutual

inductive Node where
  | mk (ty : String) (sr sc er ec sb eb : Nat) (children : NodeChildren)

inductive NodeChildren where
  | nil
  | cons (field : Option String) (child : Node) (rest : NodeChildren)

end

def Node.ty : Node → String
  | .mk t _ _ _ _ _ _ _ => t

def Node.startRow : Node → Nat
  | .mk _ sr _ _ _ _ _ _ => sr

def Node.startCol : Node → Nat
  | .mk _ _ sc _ _ _ _ _ => sc

def Node.endRow : Node → Nat
  | .mk _ _ _ er _ _ _ _ => er

def Node.startByte : Node → Nat
  | .mk _ _ _ _ _ sb _ _ => sb

def Node.endByte : Node → Nat
  | .mk _ _ _ _ _ _ eb _ => eb

def Node.childrenOf : Node → NodeChildren
  | .mk _ _ _ _ _ _ _ cs => cs

-- Pre-order traversal of a node and all its descendants: the Python
-- generator `walk` (yield the node, then walk each child in order).
mutual

def Node.walk : Node → List Node
  | .mk t sr sc er ec sb eb cs => .mk t sr sc er ec sb eb cs :: walkChildren cs

def walkChildren : NodeChildren → List Node
  | .nil => []
  | .cons _ c rest => c.walk ++ walkChildren rest

end

/-- First child carrying the given field name: `node.child_by_field_name`. -/
def findField : NodeChildren → String → Option Node
  | .nil, _ => none
  | .cons f c rest, fname => if f = some fname then some c else findField rest fname

def childByField (n : Node) (fname : String) : Option Node :=
  findField n.childrenOf fname

/-- The source bytes of a span: `code[s:e].decode("utf-8", errors="replace")`.
The byte buffer is modelled as a list of characters. -/
def sliceText (code : List Char) (s e : Nat) : String :=
  ((code.drop s).take (e - s)).asString

/-- `find_identifier_in_subtree`: first identifier-typed node in a pre-order
walk of the subtree; its source text, or `none`. -/
def find_identifier_in_subtree (node : Node) (code : List Char) : Option String :=
  (node.walk.find? (fun n => n.ty == "identifier")).map
    (fun n => sliceText code n.startByte n.endByte)

/-- `get_function_name`: the declarator child's first identifier text.
Python's `name or "<unknown>"` also maps the empty string to `<unknown>`. -/
def get_function_name (fn_node : Node) (code : List Char) : String :=
  match childByField fn_node "declarator" with
  | none => "<unknown>"
  | some decl =>
    match find_identifier_in_subtree decl code with
    | none => "<unknown>"
    | some name => if name = "" then "<unknown>" else name

/-! ## Call-graph data model -/

structure FuncDef where
  file : String
  start_line : Nat
  end_line : Nat
deriving Repr, DecidableEq

structure CallSite where
  callee : String
  file : String
  line : Nat
  col : Nat
deriving Repr, DecidableEq

structure CalledBy where
  caller : String
  file : String
  line : Nat
  col : Nat
deriving Repr, DecidableEq

structure FileError where
  file : String
  error : String
deriving Repr, DecidableEq

structure Stats where
  num_functions : Nat
  num_unique_function_names : Nat
  num_callers : Nat
  num_call_sites : Nat
  num_files_with_errors : Nat
deriving Repr, DecidableEq

structure Document where
  root : String
  functions : List (String × List FuncDef)
  calls : List (String × List String)
  call_sites : List (String × List CallSite)
  called_by_sites : List (String × List CalledBy)
  stats : Stats
  errors : List FileError
deriving Repr, DecidableEq

/-! ## Insertion-ordered map operations

A Python dict with insertion order is an association list with distinct
keys; `defaultdict(list)`'s `m[k].append(v)` is `apush`. -/

def apush (m : List (String × List α)) (k : String) (v : α) : List (String × List α) :=
  match m with
  | [] => [(k, [v])]
  | (k', vs) :: rest => if k' = k then (k', vs ++ [v]) :: rest else (k', vs) :: apush rest k v

def aget (m : List (String × List α)) (k : String) : List α :=
  match m with
  | [] => []
  | (k', vs) :: rest => if k' = k then vs else aget rest k

def pushAll (m : List (String × List α)) (items : List (String × α)) : List (String × List α) :=
  items.foldl (fun m p => apush m p.1 p.2) m

/-- Values recorded under key `k`, in order, from a flat item list. -/
def itemsFor (items : List (String × α)) (k : String) : List α :=
  items.filterMap (fun p => if p.1 = k then some p.2 else none)

/-! ## Per-file input

The read and the external parse are modelled as part of the input: a
candidate file either fails to read, reads but fails to parse, or yields
its byte buffer and syntax tree. -/

inductive FileResult where
  | readFail (err : String)
  | parseFail (err : String)
  | parsed (code : List Char) (tree : Node)

structure SFile where
  path : String
  result : FileResult

def isGood (f : SFile) : Bool :=
  match f.result with
  | .parsed _ _ => true
  | _ => false

/-! ## The analyzer (`analyze_folder`) -/

structure AnalyzeState where
  functions : List (String × List FuncDef)
  calls_map : List (String × List String)
  call_sites : List (String × List CallSite)
  file_errors : List FileError
deriving Repr

def initState : AnalyzeState := ⟨[], [], [], []⟩

/-- One step of the inner loop over a scanned function's subtree: a
call-expression node with a `function` child appends the callee's exact
source text to `calls_map` and a 1-based positioned record to
`call_sites`; anything else leaves the state unchanged. -/
def scanCallStep (path : String) (code : List Char) (fn_name : String)
    (st : AnalyzeState) (sub : Node) : AnalyzeState :=
  if sub.ty = "call_expression" then
    match childByField sub "function" with
    | none => st
    | some fn =>
      let callee := sliceText code fn.startByte fn.endByte
      { st with
        calls_map := apush st.calls_map fn_name callee,
        call_sites :=
          apush st.call_sites fn_name ⟨callee, path, fn.startRow + 1, fn.startCol + 1⟩ }
  else st

def scanCalls (path : String) (code : List Char) (fn_name : String)
    (st : AnalyzeState) (subs : List Node) : AnalyzeState :=
  subs.foldl (scanCallStep path code fn_name) st

/-- One step of the outer loop over the whole tree's pre-order walk: a
function-definition node whose extracted name is not `<unknown>` records
its span under the name and then scans its own subtree for calls. -/
def scanStep (path : String) (code : List Char) (st : AnalyzeState) (n : Node) :
    AnalyzeState :=
  if n.ty = "function_definition" then
    let fn_name := get_function_name n code
    if fn_name = "<unknown>" then st
    else
      scanCalls path code fn_name
        { st with
          functions := apush st.functions fn_name ⟨path, n.startRow + 1, n.endRow + 1⟩ }
        n.walk
  else st

def scanTree (path : String) (code : List Char) (st : AnalyzeState)
    (nodes : List Node) : AnalyzeState :=
  nodes.foldl (scanStep path code) st

/-- Per-file step of `analyze_folder`'s main loop: a read or parse failure
appends one `FileError` and skips the file; a parsed file is scanned. -/
def processFile (st : AnalyzeState) (f : SFile) : AnalyzeState :=
  match f.result with
  | .readFail e =>
    { st with file_errors := st.file_errors ++ [⟨f.path, "read failed: " ++ e⟩] }
  | .parseFail e =>
    { st with file_errors := st.file_errors ++ [⟨f.path, "parse failed: " ++ e⟩] }
  | .parsed code tree => scanTree f.path code st tree.walk

/-- Inversion of the outgoing call-site map into `called_by_sites`:
iterate callers in insertion order, then their sites in order, appending
one `{caller, file, line, col}` record under each site's callee. -/
def invertCallSites (cs : List (String × List CallSite)) :
    List (String × List CalledBy) :=
  cs.foldl (fun acc p =>
    p.2.foldl (fun acc s => apush acc s.callee ⟨p.1, s.file, s.line, s.col⟩) acc) []

/-- `analyze_folder` over an already-enumerated list of candidate files:
fold the per-file step, derive the inverse index, and project statistics
from the final maps. -/
def analyze_folder (folder : String) (files : List SFile) : Document :=
  let st := files.foldl processFile initState
  { root := folder,
    functions := st.functions,
    calls := st.calls_map,
    call_sites := st.call_sites,
    called_by_sites := invertCallSites st.call_sites,
    stats :=
      { num_functions := (st.functions.map (fun p => p.2.length)).sum,
        num_unique_function_names := st.functions.length,
        num_callers := st.calls_map.length,
        num_call_sites := (st.call_sites.map (fun p => p.2.length)).sum,
        num_files_with_errors := st.file_errors.length },
    errors := st.file_errors }

/-! ## Source enumeration (`iter_source_files`)

The file system is a rose tree of named directories with plain file
names; `os.walk` yields a directory's own files, then recurses into its
subdirectories in order. The code prunes `dirnames` in place, so pruned
directories are never descended into; the root itself is never
name-checked. -/

mutual

inductive FSTree where
  | dir (name : String) (subdirs : FSForest) (files : List String)

inductive FSForest where
  | nil
  | cons (t : FSTree) (rest : FSForest)

end

def FSTree.name : FSTree → String
  | .dir n _ _ => n

def ignore_dirs : List String :=
  [".git", ".svn", ".hg",
   "build", "cmake-build-debug", "cmake-build-release",
   ".vscode", ".idea",
   "venv", ".venv", "__pycache__",
   "node_modules"]

/-- Python's `str.startswith`, on the character-list view of strings. -/
def strStartsWith (s pre : String) : Bool :=
  pre.toList.isPrefixOf s.toList

/-- Python's `str.endswith`, on the character-list view of strings. -/
def strEndsWith (s suf : String) : Bool :=
  suf.toList.isSuffixOf s.toList

/-- A directory name survives pruning when it is not in the ignore set and
does not start with a dot. -/
def keepName (d : String) : Bool :=
  !(ignore_dirs.contains d) && !(strStartsWith d ".")

/-- The extension test `fn.endswith((".c", ".h"))`. -/
def hasSourceExt (fn : String) : Bool :=
  strEndsWith fn ".c" || strEndsWith fn ".h"

mutual

def iterSourceFiles (dirpath : String) (t : FSTree) : List String :=
  match t with
  | .dir _ subdirs files =>
    (files.filter hasSourceExt).map (fun fn => dirpath ++ "/" ++ fn)
      ++ iterForest dirpath subdirs

def iterForest (dirpath : String) (f : FSForest) : List String :=
  match f with
  | .nil => []
  | .cons t rest =>
    (if keepName t.name then iterSourceFiles (dirpath ++ "/" ++ t.name) t else [])
      ++ iterForest dirpath rest

end

/-! Spec-side enumeration, for the refinement claims about ignore rules.
Modelled from the spec: enumerate every file of the tree together with
its chain of ancestor directory names strictly below the root, in the
same directory-walk order; the spec's rule is then a filter — keep a
file iff it has a source extension and no ancestor directory is ignored
or hidden. -/

mutual

def allFilesT (dirpath : String) (anc : List String) (t : FSTree) :
    List (String × List String × String) :=
  match t with
  | .dir _ subdirs files =>
    files.map (fun fn => (dirpath, anc, fn)) ++ allFilesF dirpath anc subdirs

def allFilesF (dirpath : String) (anc : List String) (f : FSForest) :
    List (String × List String × String) :=
  match f with
  | .nil => []
  | .cons t rest =>
    allFilesT (dirpath ++ "/" ++ t.name) (anc ++ [t.name]) t
      ++ allFilesF dirpath anc rest

end

/-- Spec-side keep rule for an enumerated file: source extension and no
ignored / hidden ancestor directory. -/
def goodTriple (x : String × List String × String) : Bool :=
  hasSourceExt x.2.2 && x.2.1.all keepName

def tripPath (x : String × List String × String) : String :=
  x.1 ++ "/" ++ x.2.2

/-- Analysis of a whole file-system tree: the enumerated candidate paths,
each read and parsed through a content oracle, fed to `analyze_folder`. -/
def analyzeTree (root : String) (t : FSTree) (fsread : String → FileResult) :
    Document :=
  analyze_folder root ((iterSourceFiles root t).map (fun p => ⟨p, fsread p⟩))

/-! ## Invocation (`main`) -/

/-- The host environment: path resolution, existence and directory checks,
and the candidate files a root directory yields once enumerated and read. -/
structure World where
  resolve : String → String
  pathExists : String → Bool
  isDir : String → Bool
  filesAt : String → List SFile

/-- Outcome of an invocation: a non-zero `SystemExit` before any file is
processed (no document written), or a document written to an output path. -/
inductive MainResult where
  | exit (code : Nat)
  | success (outPath : String) (doc : Document)

def defaultOutName : String := "_callgraph_callsites.json"

def outPathOf (w : World) (folder : String) (rest : List String) : String :=
  match rest with
  | o :: _ => w.resolve o
  | [] => folder ++ "/" ++ defaultOutName

/-- `main`: usage exit on a missing argument; `SystemExit` (code 1) on a
missing or non-directory root; otherwise analyze and write the document
to the second argument or to the fixed default name inside the root. -/
def mainRun (argv : List String) (w : World) : MainResult :=
  match argv with
  | _prog :: folderArg :: rest =>
    let folder := w.resolve folderArg
    if w.pathExists folder && w.isDir folder then
      .success (outPathOf w folder rest) (analyze_folder folder (w.filesAt folder))
    else .exit 1
  | _ => .exit 1

/-! ## Flat item lists

Each accumulator map of the analyzer is a fold of `apush` over a flat
list of `(key, value)` items read off the syntax trees in traversal
order; the definitions below name those lists, and the lemmas that
follow prove the fold equal to `pushAll` over them. -/

/-- The `(caller, callee)` items contributed by the call expressions of
one scanned subtree, in traversal order. -/
def callNameItems (code : List Char) (nm : String) (subs : List Node) :
    List (String × String) :=
  subs.filterMap (fun sub =>
    if sub.ty = "call_expression" then
      (childByField sub "function").map
        (fun fn => (nm, sliceText code fn.startByte fn.endByte))
    else none)

/-- The `(caller, CallSite)` items contributed by the call expressions of
one scanned subtree, in traversal order. -/
def callSiteItems (path : String) (code : List Char) (nm : String) (subs : List Node) :
    List (String × CallSite) :=
  subs.filterMap (fun sub =>
    if sub.ty = "call_expression" then
      (childByField sub "function").map
        (fun fn =>
          (nm, ⟨sliceText code fn.startByte fn.endByte, path,
                fn.startRow + 1, fn.startCol + 1⟩))
    else none)

/-- The `(name, FuncDef)` items contributed by the nameable
function-definition nodes of a node list, in order. -/
def fnDefItems (path : String) (code : List Char) (nodes : List Node) :
    List (String × FuncDef) :=
  nodes.filterMap (fun n =>
    if n.ty = "function_definition" then
      if get_function_name n code = "<unknown>" then none
      else some (get_function_name n code, ⟨path, n.startRow + 1, n.endRow + 1⟩)
    else none)

def fnCallNameItems (code : List Char) (nodes : List Node) : List (String × String) :=
  nodes.flatMap (fun n =>
    if n.ty = "function_definition" then
      if get_function_name n code = "<unknown>" then []
      else callNameItems code (get_function_name n code) n.walk
    else [])

def fnCallSiteItems (path : String) (code : List Char) (nodes : List Node) :
    List (String × CallSite) :=
  nodes.flatMap (fun n =>
    if n.ty = "function_definition" then
      if get_function_name n code = "<unknown>" then []
      else callSiteItems path code (get_function_name n code) n.walk
    else [])

def fileDefs (f : SFile) : List (String × FuncDef) :=
  match f.result with
  | .parsed code tree => fnDefItems f.path code tree.walk
  | _ => []

def fileCallNames (f : SFile) : List (String × String) :=
  match f.result with
  | .parsed code tree => fnCallNameItems code tree.walk
  | _ => []

def fileCallSites (f : SFile) : List (String × CallSite) :=
  match f.result with
  | .parsed code tree => fnCallSiteItems f.path code tree.walk
  | _ => []

def fileErrs (f : SFile) : List FileError :=
  match f.result with
  | .readFail e => [⟨f.path, "read failed: " ++ e⟩]
  | .parseFail e => [⟨f.path, "parse failed: " ++ e⟩]
  | .parsed _ _ => []

/-! ## The fold characterization -/

theorem pushAll_append (m : List (String × List α)) (a b : List (String × α)) :
    pushAll m (a ++ b) = pushAll (pushAll m a) b := by
  simp [pushAll, List.foldl_append]

theorem scanCalls_eq (path : String) (code : List Char) (nm : String)
    (subs : List Node) (st : AnalyzeState) :
    scanCalls path code nm st subs =
      { st with
        calls_map := pushAll st.calls_map (callNameItems code nm subs),
        call_sites := pushAll st.call_sites (callSiteItems path code nm subs) } := by
  induction subs generalizing st with
  | nil => simp [scanCalls, callNameItems, callSiteItems, pushAll]
  | cons sub rest ih =>
    by_cases h : sub.ty = "call_expression"
    · cases hf : childByField sub "function" with
      | none =>
        simp only [scanCalls, List.foldl_cons] at ih ⊢
        simp [scanCallStep, h, hf, ih, callNameItems, callSiteItems,
          List.filterMap_cons]
      | some fn =>
        simp only [scanCalls, List.foldl_cons] at ih ⊢
        simp [scanCallStep, h, hf, ih, callNameItems, callSiteItems,
          List.filterMap_cons, pushAll]
    · simp only [scanCalls, List.foldl_cons] at ih ⊢
      simp [scanCallStep, h, ih, callNameItems, callSiteItems, List.filterMap_cons]

theorem scanTree_eq (path : String) (code : List Char)
    (nodes : List Node) (st : AnalyzeState) :
    scanTree path code st nodes =
      { st with
        functions := pushAll st.functions (fnDefItems path code nodes),
        calls_map := pushAll st.calls_map (fnCallNameItems code nodes),
        call_sites := pushAll st.call_sites (fnCallSiteItems path code nodes) } := by
  induction nodes generalizing st with
  | nil => simp [scanTree, fnDefItems, fnCallNameItems, fnCallSiteItems, pushAll]
  | cons n rest ih =>
    by_cases h : n.ty = "function_definition"
    · by_cases h2 : get_function_name n code = "<unknown>"
      · simp only [scanTree, List.foldl_cons] at ih ⊢
        simp [scanStep, h, h2, ih, fnDefItems, fnCallNameItems, fnCallSiteItems,
          List.filterMap_cons]
      · simp only [scanTree, List.foldl_cons] at ih ⊢
        rw [scanStep, if_pos h, if_neg h2, scanCalls_eq, ih]
        simp [fnDefItems, fnCallNameItems, fnCallSiteItems, List.filterMap_cons,
          h, h2, pushAll_append, pushAll]
    · simp only [scanTree, List.foldl_cons] at ih ⊢
      simp [scanStep, h, ih, fnDefItems, fnCallNameItems, fnCallSiteItems,
        List.filterMap_cons]

/-- Master characterization of the analyzer's main loop: each accumulator
is a `pushAll` of its flat item list, and the error log is the
concatenation of the per-file error lists. -/
theorem foldFiles_eq (files : List SFile) (st : AnalyzeState) :
    files.foldl processFile st =
      { st with
        functions := pushAll st.functions (files.flatMap fileDefs),
        calls_map := pushAll st.calls_map (files.flatMap fileCallNames),
        call_sites := pushAll st.call_sites (files.flatMap fileCallSites),
        file_errors := st.file_errors ++ files.flatMap fileErrs } := by
  induction files generalizing st with
  | nil => simp [pushAll]
  | cons f rest ih =>
    cases hr : f.result with
    | readFail e =>
      simp only [List.foldl_cons]
      rw [processFile, hr]
      simp [ih, fileDefs, fileCallNames, fileCallSites, fileErrs, hr]
    | parseFail e =>
      simp only [List.foldl_cons]
      rw [processFile, hr]
      simp [ih, fileDefs, fileCallNames, fileCallSites, fileErrs, hr]
    | parsed code tree =>
      simp only [List.foldl_cons, processFile, hr]
      rw [scanTree_eq, ih]
      simp [fileDefs, fileCallNames, fileCallSites, fileErrs, hr, pushAll_append]

/-! ## Association-list lemmas -/

theorem aget_apush (m : List (String × List α)) (k n : String) (v : α) :
    aget (apush m k v) n = aget m n ++ (if k = n then [v] else []) := by
  induction m with
  | nil => by_cases h : k = n <;> simp [apush, aget, h]
  | cons p rest ih =>
    obtain ⟨k', vs⟩ := p
    by_cases h1 : k' = k
    · subst h1
      by_cases h2 : k' = n <;> simp [apush, aget, h2]
    · by_cases h2 : k' = n
      · subst h2
        have hk : ¬ k = k' := fun hh => h1 hh.symm
        simp [apush, aget, h1, hk]
      · simp [apush, aget, h1, h2, ih]

theorem aget_pushAll (m : List (String × List α)) (items : List (String × α))
    (n : String) :
    aget (pushAll m items) n = aget m n ++ itemsFor items n := by
  induction items generalizing m with
  | nil => simp [pushAll, itemsFor]
  | cons p rest ih =>
    simp only [pushAll, List.foldl_cons] at ih ⊢
    rw [ih, aget_apush]
    by_cases h : p.1 = n <;> simp [itemsFor, List.filterMap_cons, h]

/-- All values of an insertion-ordered map are non-empty lists. -/
def nonNilVals (m : List (String × List α)) : Bool :=
  m.all (fun p => !p.2.isEmpty)

theorem nonNilVals_apush (m : List (String × List α)) (k : String) (v : α)
    (h : nonNilVals m = true) : nonNilVals (apush m k v) = true := by
  induction m with
  | nil => simp [apush, nonNilVals]
  | cons p rest ih =>
    obtain ⟨k', vs⟩ := p
    simp only [nonNilVals, List.all_cons, Bool.and_eq_true] at h
    by_cases h1 : k' = k
    · simp [apush, h1, nonNilVals, h.2]
    · simp only [apush, if_neg h1, nonNilVals, List.all_cons, Bool.and_eq_true]
      exact ⟨h.1, ih h.2⟩

theorem nonNilVals_pushAll (m : List (String × List α)) (items : List (String × α))
    (h : nonNilVals m = true) : nonNilVals (pushAll m items) = true := by
  induction items generalizing m with
  | nil => simpa [pushAll] using h
  | cons p rest ih =>
    simp only [pushAll, List.foldl_cons] at ih ⊢
    exact ih _ (nonNilVals_apush _ _ _ h)

/-! ## Flattened pairs and the inverse index -/

/-- Flatten an insertion-ordered map back to its `(key, value)` pairs. -/
def pairsOf (m : List (String × List α)) : List (String × α) :=
  m.flatMap (fun p => p.2.map (fun v => (p.1, v)))

theorem pairsOf_apush (m : List (String × List α)) (k : String) (v : α) :
    List.Perm (pairsOf (apush m k v)) ((k, v) :: pairsOf m) := by
  induction m with
  | nil => simp [apush, pairsOf]
  | cons p rest ih =>
    obtain ⟨k', vs⟩ := p
    by_cases h1 : k' = k
    · subst h1
      have ha : apush ((k', vs) :: rest) k' v = (k', vs ++ [v]) :: rest := by
        simp [apush]
      rw [ha]
      simp only [pairsOf, List.flatMap_cons, List.map_append, List.append_assoc,
        List.singleton_append]
      exact List.perm_middle
    · simp only [apush, if_neg h1, pairsOf, List.flatMap_cons]
      exact (List.Perm.append_left _ ih).trans List.perm_middle

theorem pairsOf_pushAll (m : List (String × List α)) (items : List (String × α)) :
    List.Perm (pairsOf (pushAll m items)) (items ++ pairsOf m) := by
  induction items generalizing m with
  | nil => simp [pushAll]
  | cons p rest ih =>
    simp only [pushAll, List.foldl_cons] at ih ⊢
    refine ((ih _).trans ?_)
    refine (List.Perm.append_left _ (pairsOf_apush _ _ _)).trans ?_
    simp only [List.cons_append]
    exact List.perm_middle

/-- The flat item list of the inverse derivation: one
`(callee, {caller, file, line, col})` item per outgoing call site, in
caller order then site order. -/
def invItems (cs : List (String × List CallSite)) : List (String × CalledBy) :=
  cs.flatMap (fun p => p.2.map (fun s => (s.callee, ⟨p.1, s.file, s.line, s.col⟩)))

theorem invertCallSites_eq (cs : List (String × List CallSite)) :
    invertCallSites cs = pushAll [] (invItems cs) := by
  have inner : ∀ (caller : String) (sites : List CallSite)
      (acc : List (String × List CalledBy)),
      sites.foldl (fun acc s => apush acc s.callee ⟨caller, s.file, s.line, s.col⟩) acc
        = pushAll acc (sites.map (fun s => (s.callee, ⟨caller, s.file, s.line, s.col⟩))) := by
    intro caller sites
    induction sites with
    | nil => intro acc; simp [pushAll]
    | cons s rest ih => intro acc; simp only [List.foldl_cons, pushAll, List.map_cons] at ih ⊢; exact ih _
  have outer : ∀ (cs : List (String × List CallSite))
      (acc : List (String × List CalledBy)),
      cs.foldl (fun acc p =>
        p.2.foldl (fun acc s => apush acc s.callee ⟨p.1, s.file, s.line, s.col⟩) acc) acc
        = pushAll acc (invItems cs) := by
    intro cs
    induction cs with
    | nil => intro acc; simp [pushAll, invItems]
    | cons p rest ih =>
      intro acc
      simp only [List.foldl_cons]
      rw [inner, ih, show invItems (p :: rest)
        = p.2.map (fun s => (s.callee, ⟨p.1, s.file, s.line, s.col⟩)) ++ invItems rest
        from by simp [invItems], pushAll_append]
  exact outer cs []

/-- A call-site identity tuple: (caller, callee, file, line, col). -/
abbrev CallTup := String × String × String × Nat × Nat

/-- The identity tuples of all entries of the outgoing call-site map. -/
def outTuples (cs : List (String × List CallSite)) : List CallTup :=
  cs.flatMap (fun p => p.2.map (fun s => (p.1, s.callee, s.file, s.line, s.col)))

/-- The identity tuples of all entries of the incoming call-site map. -/
def inTuples (ib : List (String × List CalledBy)) : List CallTup :=
  ib.flatMap (fun p => p.2.map (fun r => (r.caller, p.1, r.file, r.line, r.col)))

def tupOfInPair (p : String × CalledBy) : CallTup :=
  (p.2.caller, p.1, p.2.file, p.2.line, p.2.col)

theorem inTuples_eq_pairs (ib : List (String × List CalledBy)) :
    inTuples ib = (pairsOf ib).map tupOfInPair := by
  induction ib with
  | nil => rfl
  | cons p rest ih =>
    have hh : inTuples (p :: rest)
        = (p.2.map fun r => (r.caller, p.1, r.file, r.line, r.col)) ++ inTuples rest := by
      simp [inTuples]
    rw [hh, ih]
    simp only [pairsOf, List.flatMap_cons, List.map_append, List.map_map]
    rfl

theorem invItems_tuples (cs : List (String × List CallSite)) :
    (invItems cs).map tupOfInPair = outTuples cs := by
  induction cs with
  | nil => rfl
  | cons p rest ih =>
    have hh : outTuples (p :: rest)
        = (p.2.map fun s => (p.1, s.callee, s.file, s.line, s.col)) ++ outTuples rest := by
      simp [outTuples]
    rw [hh, ← ih]
    simp only [invItems, List.flatMap_cons, List.map_append, List.map_map]
    rfl

/-- The inverse derivation is entry-for-entry: the incoming map's tuples
are a permutation of the outgoing map's tuples. -/
theorem inTuples_invert (cs : List (String × List CallSite)) :
    List.Perm (inTuples (invertCallSites cs)) (outTuples cs) := by
  rw [invertCallSites_eq, inTuples_eq_pairs]
  have h := (pairsOf_pushAll [] (invItems cs)).map tupOfInPair
  simp only [pairsOf, List.flatMap_nil, List.append_nil] at h
  rw [invItems_tuples] at h
  exact h

theorem inTuples_length (ib : List (String × List CalledBy)) :
    (inTuples ib).length = (ib.map (fun p => p.2.length)).sum := by
  induction ib with
  | nil => rfl
  | cons p rest ih =>
    simp [inTuples, List.flatMap_cons, Function.comp_def, List.length_map, ih]

theorem outTuples_length (cs : List (String × List CallSite)) :
    (outTuples cs).length = (cs.map (fun p => p.2.length)).sum := by
  induction cs with
  | nil => rfl
  | cons p rest ih =>
    simp [outTuples, List.flatMap_cons, Function.comp_def, List.length_map, ih]

/-! ## Source-enumeration refinement -/

mutual

theorem vanishT : ∀ (dirpath : String) (anc : List String) (t : FSTree),
    anc.all keepName = false →
    (allFilesT dirpath anc t).filter goodTriple = []
  | dirpath, anc, .dir name subdirs files, h => by
    simp only [allFilesT, List.filter_append]
    rw [vanishF dirpath anc subdirs h]
    simp [goodTriple, h, List.filter_map, Function.comp]

theorem vanishF : ∀ (dirpath : String) (anc : List String) (f : FSForest),
    anc.all keepName = false →
    (allFilesF dirpath anc f).filter goodTriple = []
  | dirpath, anc, .nil, h => rfl
  | dirpath, anc, .cons t rest, h => by
    simp only [allFilesF, List.filter_append]
    rw [vanishT _ (anc ++ [t.name]) t (by simp [List.all_append, h]),
      vanishF dirpath anc rest h]
    rfl

end

mutual

theorem iterT_eq : ∀ (dirpath : String) (anc : List String) (t : FSTree),
    anc.all keepName = true →
    iterSourceFiles dirpath t
      = ((allFilesT dirpath anc t).filter goodTriple).map tripPath
  | dirpath, anc, .dir name subdirs files, h => by
    simp only [iterSourceFiles, allFilesT, List.filter_append, List.map_append]
    rw [iterF_eq dirpath anc subdirs h]
    simp only [List.filter_map, List.map_map]
    have hg : (goodTriple ∘ fun fn => (dirpath, anc, fn)) = hasSourceExt := by
      funext fn
      simp [goodTriple, Function.comp_def, h]
    rw [hg]
    rfl

theorem iterF_eq : ∀ (dirpath : String) (anc : List String) (f : FSForest),
    anc.all keepName = true →
    iterForest dirpath f
      = ((allFilesF dirpath anc f).filter goodTriple).map tripPath
  | dirpath, anc, .nil, h => rfl
  | dirpath, anc, .cons t rest, h => by
    simp only [iterForest, allFilesF, List.filter_append, List.map_append]
    rw [iterF_eq dirpath anc rest h]
    by_cases hk : keepName t.name
    · rw [if_pos hk, iterT_eq (dirpath ++ "/" ++ t.name) (anc ++ [t.name]) t
        (by simp [List.all_append, h, hk])]
    · rw [if_neg hk, vanishT (dirpath ++ "/" ++ t.name) (anc ++ [t.name]) t
        (by simp [List.all_append, hk])]
      rfl

end

/-! ## Projections of the produced document -/

theorem analyze_functions_eq (root : String) (files : List SFile) :
    (analyze_folder root files).functions = pushAll [] (files.flatMap fileDefs) :=
  congrArg AnalyzeState.functions (foldFiles_eq files initState)

theorem analyze_calls_eq (root : String) (files : List SFile) :
    (analyze_folder root files).calls = pushAll [] (files.flatMap fileCallNames) :=
  congrArg AnalyzeState.calls_map (foldFiles_eq files initState)

theorem analyze_call_sites_eq (root : String) (files : List SFile) :
    (analyze_folder root files).call_sites = pushAll [] (files.flatMap fileCallSites) :=
  congrArg AnalyzeState.call_sites (foldFiles_eq files initState)

theorem analyze_called_by_eq (root : String) (files : List SFile) :
    (analyze_folder root files).called_by_sites
      = invertCallSites (pushAll [] (files.flatMap fileCallSites)) :=
  congrArg invertCallSites (congrArg AnalyzeState.call_sites (foldFiles_eq files initState))

theorem analyze_errors_eq (root : String) (files : List SFile) :
    (analyze_folder root files).errors = files.flatMap fileErrs :=
  congrArg AnalyzeState.file_errors (foldFiles_eq files initState)

/-! ## Per-file item lemmas -/

theorem itemsFor_append (a b : List (String × α)) (n : String) :
    itemsFor (a ++ b) n = itemsFor a n ++ itemsFor b n := by
  simp [itemsFor, List.filterMap_append]

theorem mem_itemsFor (items : List (String × α)) (k : String) (v : α)
    (h : (k, v) ∈ items) : v ∈ itemsFor items k := by
  simp only [itemsFor, List.mem_filterMap]
  exact ⟨(k, v), h, by simp⟩

theorem fileErrs_of_good (f : SFile) (h : isGood f = true) : fileErrs f = [] := by
  cases hr : f.result with
  | readFail e => rw [isGood, hr] at h; cases h
  | parseFail e => rw [isGood, hr] at h; cases h
  | parsed code tree => rw [fileErrs, hr]

theorem flatMap_fileErrs_good (l : List SFile) (h : l.all isGood = true) :
    l.flatMap fileErrs = [] := by
  induction l with
  | nil => rfl
  | cons f rest ih =>
    simp only [List.all_cons, Bool.and_eq_true] at h
    simp [List.flatMap_cons, fileErrs_of_good f h.1, ih h.2]

theorem badFile_empty_items (f : SFile) (h : isGood f = false) :
    fileDefs f = [] ∧ fileCallNames f = [] ∧ fileCallSites f = []
      ∧ ∃ msg, fileErrs f = [⟨f.path, msg⟩] := by
  cases hr : f.result with
  | readFail e =>
    refine ⟨?_, ?_, ?_, "read failed: " ++ e, ?_⟩ <;>
      simp [fileDefs, fileCallNames, fileCallSites, fileErrs, hr]
  | parseFail e =>
    refine ⟨?_, ?_, ?_, "parse failed: " ++ e, ?_⟩ <;>
      simp [fileDefs, fileCallNames, fileCallSites, fileErrs, hr]
  | parsed code tree => rw [isGood, hr] at h; cases h

/-! ## Concrete sample inputs

A two-function translation unit mirroring the spec's test scenario:
`helper` defined on line 1, `main` defined on lines 2-5 calling `helper`
twice (rows 2 and 3, column 4, both 0-based). Spans index into
`sampleCode`; the identifier `helper` occupies bytes 0-6 and `main`
bytes 7-11. -/

def sampleCode : List Char := "helper main".toList

def identHelper : Node := .mk "identifier" 0 5 0 11 0 6 .nil

def declHelper : Node := .mk "function_declarator" 0 5 0 13 0 8 (.cons none identHelper .nil)

def fnHelper : Node := .mk "function_definition" 0 0 0 15 0 15 (.cons (some "declarator") declHelper .nil)

def identMain : Node := .mk "identifier" 1 5 1 9 7 11 .nil

def declMain : Node := .mk "function_declarator" 1 5 1 11 7 13 (.cons none identMain .nil)

def calleeId1 : Node := .mk "identifier" 2 4 2 10 0 6 .nil

def callOne : Node := .mk "call_expression" 2 4 2 12 0 8 (.cons (some "function") calleeId1 .nil)

def calleeId2 : Node := .mk "identifier" 3 4 3 10 0 6 .nil

def callTwo : Node := .mk "call_expression" 3 4 3 12 0 8 (.cons (some "function") calleeId2 .nil)

def bodyMain : Node := .mk "compound_statement" 1 12 4 0 13 30 (.cons none callOne (.cons none callTwo .nil))

def fnMain : Node := .mk "function_definition" 1 0 4 0 7 30 (.cons (some "declarator") declMain (.cons none bodyMain .nil))

def rootA : Node := .mk "translation_unit" 0 0 4 0 0 30 (.cons none fnHelper (.cons none fnMain .nil))

def fileA : SFile := ⟨"r/a.c", .parsed sampleCode rootA⟩

def fileB : SFile := ⟨"r/b.c", .readFail "denied"⟩

def fileC : SFile := ⟨"r/c.c", .parsed sampleCode rootA⟩

/-- A call expression with no `function` child. -/
def callNoFn : Node := .mk "call_expression" 5 0 5 2 0 2 .nil

/-- A world whose root check fails. -/
def badWorld : World := ⟨id, fun _ => false, fun _ => false, fun _ => []⟩

/-- A world whose root check succeeds and whose root holds the sample files. -/
def goodWorld : World := ⟨id, fun _ => true, fun _ => true, fun _ => [fileA, fileB]⟩

/-- A one-directory tree containing a single hidden source file. -/
def hiddenTree : FSTree := .dir "r" .nil [".hid.c"]

theorem filter_nonNil_self (m : List (String × List α)) (h : nonNilVals m = true) :
    m.filter (fun p => !p.2.isEmpty) = m := by
  rw [List.filter_eq_self]
  intro a ha
  exact List.all_eq_true.mp h a ha

/-! ## The claims -/

/-- Claim C1 (inverse-index consistency): in every produced document the
incoming call-site map is exactly the inversion of the outgoing call-site
map — the multiset of (caller, callee, file, line, col) identity tuples
read off `called_by_sites` is a permutation of the tuples read off
`call_sites` (so each outgoing entry has exactly one matching incoming
record, counted with multiplicity), and the total number of entries
across all `called_by_sites` lists equals the total across all
`call_sites` lists. -/
theorem claim_C1_inverse_index (root : String) (files : List SFile) :
    List.Perm (inTuples (analyze_folder root files).called_by_sites)
        (outTuples (analyze_folder root files).call_sites)
    ∧ ((analyze_folder root files).called_by_sites.map (fun p => p.2.length)).sum
        = ((analyze_folder root files).call_sites.map (fun p => p.2.length)).sum
    ∧ ∀ t : CallTup,
        (inTuples (analyze_folder root files).called_by_sites).countP
            (fun x => decide (x = t))
          = (outTuples (analyze_folder root files).call_sites).countP
            (fun x => decide (x = t)) := by
  have hp : List.Perm (inTuples (analyze_folder root files).called_by_sites)
      (outTuples (analyze_folder root files).call_sites) := by
    rw [analyze_called_by_eq, analyze_call_sites_eq]
    exact inTuples_invert _
  refine ⟨hp, ?_, fun t => hp.countP_eq _⟩
  have hl := hp.length_eq
  rwa [inTuples_length, outTuples_length] at hl

/-- Claim C6 (ignore-rule boundary): source enumeration yields exactly
the files whose name has a `.c`/`.h` extension and that are not located
under any directory (strictly below the root) whose name is in the fixed
ignore set or starts with a dot: `iter_source_files` equals the spec-side
full enumeration filtered by that rule, path for path and in the same
walk order. A file inside a pruned directory therefore never reaches the
analyzer and contributes zero entries to every map. -/
theorem claim_C6_ignore_rules (root : String) (t : FSTree) :
    iterSourceFiles root t
      = ((allFilesT root [] t).filter goodTriple).map tripPath :=
  iterT_eq root [] t rfl

/-- Claim C7 (statistics are projections): in every produced document,
`num_functions` is the summed length of the `functions` lists,
`num_unique_function_names` the number of `functions` keys, `num_callers`
the number of callers with at least one recorded call, `num_call_sites`
the summed length of the `call_sites` lists, and `num_files_with_errors`
the length of `errors`. -/
theorem claim_C7_stats_projections (root : String) (files : List SFile) :
    (analyze_folder root files).stats.num_functions
        = ((analyze_folder root files).functions.map (fun p => p.2.length)).sum
    ∧ (analyze_folder root files).stats.num_unique_function_names
        = (analyze_folder root files).functions.length
    ∧ (analyze_folder root files).stats.num_callers
        = ((analyze_folder root files).calls.filter (fun p => !p.2.isEmpty)).length
    ∧ (analyze_folder root files).stats.num_call_sites
        = ((analyze_folder root files).call_sites.map (fun p => p.2.length)).sum
    ∧ (analyze_folder root files).stats.num_files_with_errors
        = (analyze_folder root files).errors.length := by
  refine ⟨rfl, rfl, ?_, rfl, rfl⟩
  have h : nonNilVals (analyze_folder root files).calls = true := by
    rw [analyze_calls_eq]
    exact nonNilVals_pushAll _ _ rfl
  rw [filter_nonNil_self _ h]
  rfl

/-- Claim C9 (no empty entries): in every produced document, every key
present in `functions`, `calls`, `call_sites` and `called_by_sites` maps
to a non-empty list; hence a successfully named function that makes no
calls is absent from `calls`/`call_sites` rather than mapped to an empty
list, and a name that is never called is absent from `called_by_sites`. -/
theorem claim_C9_no_empty_entries (root : String) (files : List SFile) :
    nonNilVals (analyze_folder root files).functions = true
    ∧ nonNilVals (analyze_folder root files).calls = true
    ∧ nonNilVals (analyze_folder root files).call_sites = true
    ∧ nonNilVals (analyze_folder root files).called_by_sites = true := by
  refine ⟨?_, ?_, ?_, ?_⟩
  · rw [analyze_functions_eq]
    exact nonNilVals_pushAll _ _ rfl
  · rw [analyze_calls_eq]
    exact nonNilVals_pushAll _ _ rfl
  · rw [analyze_call_sites_eq]
    exact nonNilVals_pushAll _ _ rfl
  · rw [analyze_called_by_eq, invertCallSites_eq]
    exact nonNilVals_pushAll _ _ rfl

/-- Claim C2 (failure isolation): when exactly one candidate file fails
its read or parse, the produced document's `functions`, `calls`,
`call_sites` and `called_by_sites` maps are the ones produced from the
remaining good files alone (the failing file contributes no entries),
`errors` is exactly the one entry naming the failing file with a
human-readable cause, and `stats.num_files_with_errors` is 1; the run
is not aborted. -/
theorem claim_C2_failure_isolation (root : String) (pre post : List SFile)
    (bad : SFile)
    (hpre : pre.all isGood = true) (hpost : post.all isGood = true)
    (hbad : isGood bad = false) :
    (analyze_folder root (pre ++ bad :: post)).functions
        = (analyze_folder root (pre ++ post)).functions
    ∧ (analyze_folder root (pre ++ bad :: post)).calls
        = (analyze_folder root (pre ++ post)).calls
    ∧ (analyze_folder root (pre ++ bad :: post)).call_sites
        = (analyze_folder root (pre ++ post)).call_sites
    ∧ (analyze_folder root (pre ++ bad :: post)).called_by_sites
        = (analyze_folder root (pre ++ post)).called_by_sites
    ∧ (analyze_folder root (pre ++ bad :: post)).errors = fileErrs bad
    ∧ (∃ msg, fileErrs bad = [⟨bad.path, msg⟩])
    ∧ (analyze_folder root (pre ++ bad :: post)).stats.num_files_with_errors = 1 := by
  obtain ⟨hd, hn, hs, msg, herr⟩ := badFile_empty_items bad hbad
  have hflat : ∀ {α : Type} (g : SFile → List α), g bad = [] →
      (pre ++ bad :: post).flatMap g = (pre ++ post).flatMap g := by
    intro α g hg
    simp [List.flatMap_append, List.flatMap_cons, hg]
  have he : (analyze_folder root (pre ++ bad :: post)).errors = fileErrs bad := by
    rw [analyze_errors_eq]
    simp [List.flatMap_append, List.flatMap_cons,
      flatMap_fileErrs_good pre hpre, flatMap_fileErrs_good post hpost]
  refine ⟨?_, ?_, ?_, ?_, he, ⟨msg, herr⟩, ?_⟩
  · rw [analyze_functions_eq, analyze_functions_eq, hflat fileDefs hd]
  · rw [analyze_calls_eq, analyze_calls_eq, hflat fileCallNames hn]
  · rw [analyze_call_sites_eq, analyze_call_sites_eq, hflat fileCallSites hs]
  · rw [analyze_called_by_eq, analyze_called_by_eq, hflat fileCallSites hs]
  · rw [show (analyze_folder root (pre ++ bad :: post)).stats.num_files_with_errors
        = (analyze_folder root (pre ++ bad :: post)).errors.length from rfl, he, herr]
    rfl

/-- Claim C3 (multi-definition handling): `functions[name]` holds one
`{file, start_line, end_line}` entry per definition, in discovery order
across files, never deduplicated by name: in general it equals the flat
per-file definition items filtered to the name, and for two files each
contributing exactly one definition of the name the result is the two
entries in file order, neither overwriting the other. -/
theorem claim_C3_multi_definition (root : String) (files : List SFile) (n : String)
    (f1 f2 : SFile) (e1 e2 : FuncDef)
    (h1 : itemsFor (fileDefs f1) n = [e1])
    (h2 : itemsFor (fileDefs f2) n = [e2]) :
    aget (analyze_folder root files).functions n
        = itemsFor (files.flatMap fileDefs) n
    ∧ aget (analyze_folder root [f1, f2]).functions n = [e1, e2] := by
  constructor
  · rw [analyze_functions_eq, aget_pushAll]
    simp [aget]
  · rw [analyze_functions_eq, aget_pushAll]
    have hl : ([f1, f2].flatMap fileDefs) = fileDefs f1 ++ fileDefs f2 := by
      simp [List.flatMap_cons]
    rw [hl, itemsFor_append, h1, h2]
    simp [aget]

/-- Claim C4 (function naming and silent skip): the extracted function
name is the source text of the first identifier-typed node in a
pre-order walk of the declarator subtree (whenever that text is
non-empty, as tree-sitter identifiers always are); a definition node
with no declarator child, or whose declarator subtree holds no
identifier, extracts `<unknown>`, and the outer scan step leaves the
whole state — functions, both call maps, and the error list — unchanged
for it: recorded nowhere, reported nowhere. -/
theorem claim_C4_naming_and_skip (code : List Char) (n d i : Node)
    (st : AnalyzeState) (path : String)
    (h1 : childByField n "declarator" = some d)
    (h2 : d.walk.find? (fun m => m.ty == "identifier") = some i)
    (h3 : sliceText code i.startByte i.endByte ≠ "") :
    get_function_name n code = sliceText code i.startByte i.endByte
    ∧ (∀ n2 : Node, childByField n2 "declarator" = none →
        get_function_name n2 code = "<unknown>")
    ∧ (∀ n2 d2 : Node, childByField n2 "declarator" = some d2 →
        d2.walk.find? (fun m => m.ty == "identifier") = none →
        get_function_name n2 code = "<unknown>")
    ∧ (∀ n2 : Node, get_function_name n2 code = "<unknown>" →
        scanStep path code st n2 = st) := by
  refine ⟨?_, ?_, ?_, ?_⟩
  · simp [get_function_name, h1, find_identifier_in_subtree, h2, h3]
  · intro n2 hdecl
    simp [get_function_name, hdecl]
  · intro n2 d2 hdecl hfind
    simp [get_function_name, hdecl, find_identifier_in_subtree, hfind]
  · intro n2 hname
    by_cases hty : n2.ty = "function_definition"
    · simp [scanStep, hty, hname]
    · simp [scanStep, hty]

/-- Claim C5 (call extraction): for every caller name, `calls` and
`call_sites` are exactly the flat per-file call items filtered to that
caller — one callee name (the `function` sub-node's exact source text,
unnormalized) and one `{callee, file, line, col}` record (row and column
converted to 1-based) per matching call-expression node, in traversal
order; a call expression with no `function` sub-node leaves the state
unchanged and produces no error. -/
theorem claim_C5_call_extraction (root : String) (files : List SFile) (c : String)
    (path : String) (code : List Char) (nm : String) (st : AnalyzeState) :
    aget (analyze_folder root files).calls c
        = itemsFor (files.flatMap fileCallNames) c
    ∧ aget (analyze_folder root files).call_sites c
        = itemsFor (files.flatMap fileCallSites) c
    ∧ ∀ sub : Node, childByField sub "function" = none →
        scanCallStep path code nm st sub = st := by
  refine ⟨?_, ?_, ?_⟩
  · rw [analyze_calls_eq, aget_pushAll]
    simp [aget]
  · rw [analyze_call_sites_eq, aget_pushAll]
    simp [aget]
  · intro sub hf
    by_cases hty : sub.ty = "call_expression"
    · simp [scanCallStep, hty, hf]
    · simp [scanCallStep, hty]

/-- Claim C8 (fatal root validation): an invocation whose resolved root
fails the exists-and-is-directory check terminates with a non-zero exit
and produces no document; a valid invocation produces the analyzed
document at the supplied output path, or at the fixed default filename
inside the root when none is supplied. -/
theorem claim_C8_root_validation (w1 w2 : World) (p1 f1 p2 f2 : String)
    (r1 r2 : List String)
    (h1 : (w1.pathExists (w1.resolve f1) && w1.isDir (w1.resolve f1)) = false)
    (h2 : w2.pathExists (w2.resolve f2) = true)
    (h3 : w2.isDir (w2.resolve f2) = true) :
    (∃ c, mainRun (p1 :: f1 :: r1) w1 = .exit c ∧ c ≠ 0)
    ∧ mainRun (p2 :: f2 :: r2) w2
        = .success (outPathOf w2 (w2.resolve f2) r2)
            (analyze_folder (w2.resolve f2) (w2.filesAt (w2.resolve f2))) := by
  constructor
  · exact ⟨1, by simp [mainRun, h1], by decide⟩
  · simp [mainRun, h2, h3]

/-- Claim C10 (hidden files are indexed): the hidden-name pruning applies
only to directories, so a file whose own name starts with a dot but has a
source extension, sitting in a directory with no pruned ancestor, is
enumerated, and both the function definitions and the calls its parse
yields appear in the produced document — the definition entry in
`functions`, the callee name in `calls`, and the call-site record in
`call_sites`. -/
theorem claim_C10_hidden_files (root : String) (t : FSTree)
    (dir : String) (anc : List String) (fn : String)
    (fsread : String → FileResult) (m : String) (e : FuncDef)
    (c callee : String) (site : CallSite)
    (h1 : (dir, anc, fn) ∈ allFilesT root [] t)
    (h2 : anc.all keepName = true)
    (_h3 : strStartsWith fn "." = true)
    (h4 : hasSourceExt fn = true)
    (h5 : (m, e) ∈ fileDefs ⟨dir ++ "/" ++ fn, fsread (dir ++ "/" ++ fn)⟩)
    (h6 : (c, callee) ∈ fileCallNames ⟨dir ++ "/" ++ fn, fsread (dir ++ "/" ++ fn)⟩)
    (h7 : (c, site) ∈ fileCallSites ⟨dir ++ "/" ++ fn, fsread (dir ++ "/" ++ fn)⟩) :
    (dir ++ "/" ++ fn) ∈ iterSourceFiles root t
    ∧ e ∈ aget (analyzeTree root t fsread).functions m
    ∧ callee ∈ aget (analyzeTree root t fsread).calls c
    ∧ site ∈ aget (analyzeTree root t fsread).call_sites c := by
  have hmem : (dir ++ "/" ++ fn) ∈ iterSourceFiles root t := by
    rw [iterT_eq root [] t rfl]
    refine List.mem_map.mpr ⟨(dir, anc, fn), ?_, rfl⟩
    refine List.mem_filter.mpr ⟨h1, ?_⟩
    simp [goodTriple, h2, h4]
  have hfile : (⟨dir ++ "/" ++ fn, fsread (dir ++ "/" ++ fn)⟩ : SFile)
      ∈ (iterSourceFiles root t).map (fun p => (⟨p, fsread p⟩ : SFile)) :=
    List.mem_map.mpr ⟨dir ++ "/" ++ fn, hmem, rfl⟩
  refine ⟨hmem, ?_, ?_, ?_⟩
  · rw [analyzeTree, analyze_functions_eq, aget_pushAll]
    have hitem : (m, e)
        ∈ ((iterSourceFiles root t).map (fun p => (⟨p, fsread p⟩ : SFile))).flatMap fileDefs :=
      List.mem_flatMap.mpr ⟨_, hfile, h5⟩
    have := mem_itemsFor _ _ _ hitem
    simp [aget]
    exact this
  · rw [analyzeTree, analyze_calls_eq, aget_pushAll]
    have hitem : (c, callee)
        ∈ ((iterSourceFiles root t).map (fun p => (⟨p, fsread p⟩ : SFile))).flatMap fileCallNames :=
      List.mem_flatMap.mpr ⟨_, hfile, h6⟩
    have := mem_itemsFor _ _ _ hitem
    simp [aget]
    exact this
  · rw [analyzeTree, analyze_call_sites_eq, aget_pushAll]
    have hitem : (c, site)
        ∈ ((iterSourceFiles root t).map (fun p => (⟨p, fsread p⟩ : SFile))).flatMap fileCallSites :=
      List.mem_flatMap.mpr ⟨_, hfile, h7⟩
    have := mem_itemsFor _ _ _ hitem
    simp [aget]
    exact this

/-! ## Witnesses -/

/-- Witness for C2: the two-file run (one unreadable, one good) from the
spec's scenario, with the hypotheses discharged concretely. -/
theorem claim_C2_failure_isolation_witness :
    ([] : List SFile).all isGood = true
    ∧ [fileA].all isGood = true
    ∧ isGood fileB = false
    ∧ (analyze_folder "r" ([] ++ fileB :: [fileA])).functions
        = (analyze_folder "r" ([] ++ [fileA])).functions
    ∧ (analyze_folder "r" ([] ++ fileB :: [fileA])).errors = fileErrs fileB
    ∧ (analyze_folder "r" ([] ++ fileB :: [fileA])).stats.num_files_with_errors = 1 :=
  ⟨rfl, rfl, rfl,
    (claim_C2_failure_isolation "r" [] [fileA] fileB rfl rfl rfl).1,
    (claim_C2_failure_isolation "r" [] [fileA] fileB rfl rfl rfl).2.2.2.2.1,
    (claim_C2_failure_isolation "r" [] [fileA] fileB rfl rfl rfl).2.2.2.2.2.2⟩

/-- Witness for C3: two files each defining `helper` once; the document
keeps both entries in file order. -/
theorem claim_C3_multi_definition_witness :
    itemsFor (fileDefs fileA) "helper" = [⟨"r/a.c", 1, 1⟩]
    ∧ itemsFor (fileDefs fileC) "helper" = [⟨"r/c.c", 1, 1⟩]
    ∧ aget (analyze_folder "r" [fileA, fileC]).functions "helper"
        = [⟨"r/a.c", 1, 1⟩, ⟨"r/c.c", 1, 1⟩] :=
  ⟨by decide, by decide,
    (claim_C3_multi_definition "r" [fileA, fileC] "helper" fileA fileC
      ⟨"r/a.c", 1, 1⟩ ⟨"r/c.c", 1, 1⟩ (by decide) (by decide)).2⟩

/-- Witness for C4: the sample `helper` definition node, whose declarator
subtree's first identifier spans bytes 0-6 of the sample buffer. -/
theorem claim_C4_naming_and_skip_witness :
    childByField fnHelper "declarator" = some declHelper
    ∧ declHelper.walk.find? (fun m => m.ty == "identifier") = some identHelper
    ∧ sliceText sampleCode identHelper.startByte identHelper.endByte ≠ ""
    ∧ get_function_name fnHelper sampleCode
        = sliceText sampleCode identHelper.startByte identHelper.endByte :=
  ⟨rfl, rfl, by decide,
    (claim_C4_naming_and_skip sampleCode fnHelper declHelper identHelper initState "p"
      rfl rfl (by decide)).1⟩

/-- Witness for C5: the sample run records both `helper` calls of `main`,
and a call expression with no `function` sub-node contributes nothing. -/
theorem claim_C5_call_extraction_witness :
    childByField callNoFn "function" = none
    ∧ aget (analyze_folder "r" [fileA]).calls "main" = ["helper", "helper"]
    ∧ scanCallStep "p" sampleCode "main" initState callNoFn = initState :=
  ⟨rfl,
    by
      rw [(claim_C5_call_extraction "r" [fileA] "main" "p" sampleCode "main" initState).1]
      decide,
    (claim_C5_call_extraction "r" [fileA] "main" "p" sampleCode "main"
      initState).2.2 callNoFn rfl⟩

/-- Witness for C8: a world that fails the root check exits non-zero with
no document; a world that passes it writes the analyzed document to the
default output path. -/
theorem claim_C8_root_validation_witness :
    (badWorld.pathExists (badWorld.resolve "x")
        && badWorld.isDir (badWorld.resolve "x")) = false
    ∧ goodWorld.pathExists (goodWorld.resolve "y") = true
    ∧ goodWorld.isDir (goodWorld.resolve "y") = true
    ∧ (∃ c, mainRun ["prog", "x"] badWorld = .exit c ∧ c ≠ 0)
    ∧ mainRun ["prog", "y"] goodWorld
        = .success (outPathOf goodWorld (goodWorld.resolve "y") [])
            (analyze_folder (goodWorld.resolve "y")
              (goodWorld.filesAt (goodWorld.resolve "y"))) :=
  ⟨rfl, rfl, rfl,
    (claim_C8_root_validation badWorld goodWorld "prog" "x" "prog" "y" [] []
      rfl rfl rfl).1,
    (claim_C8_root_validation badWorld goodWorld "prog" "x" "prog" "y" [] []
      rfl rfl rfl).2⟩

/-- Witness for C10: a hidden `.hid.c` file directly under the root is
enumerated; its `helper` definition appears in `functions`, and the
`helper` call of `main` appears in `calls` and `call_sites`. -/
theorem claim_C10_hidden_files_witness :
    ("r", ([] : List String), ".hid.c") ∈ allFilesT "r" [] hiddenTree
    ∧ ([] : List String).all keepName = true
    ∧ strStartsWith ".hid.c" "." = true
    ∧ hasSourceExt ".hid.c" = true
    ∧ ("helper", (⟨"r" ++ "/" ++ ".hid.c", 1, 1⟩ : FuncDef))
        ∈ fileDefs ⟨"r" ++ "/" ++ ".hid.c",
            (fun _ => FileResult.parsed sampleCode rootA) ("r" ++ "/" ++ ".hid.c")⟩
    ∧ ("main", "helper")
        ∈ fileCallNames ⟨"r" ++ "/" ++ ".hid.c",
            (fun _ => FileResult.parsed sampleCode rootA) ("r" ++ "/" ++ ".hid.c")⟩
    ∧ ("main", (⟨"helper", "r" ++ "/" ++ ".hid.c", 3, 5⟩ : CallSite))
        ∈ fileCallSites ⟨"r" ++ "/" ++ ".hid.c",
            (fun _ => FileResult.parsed sampleCode rootA) ("r" ++ "/" ++ ".hid.c")⟩
    ∧ ("r" ++ "/" ++ ".hid.c") ∈ iterSourceFiles "r" hiddenTree
    ∧ (⟨"r" ++ "/" ++ ".hid.c", 1, 1⟩ : FuncDef)
        ∈ aget (analyzeTree "r" hiddenTree
            (fun _ => FileResult.parsed sampleCode rootA)).functions "helper"
    ∧ "helper"
        ∈ aget (analyzeTree "r" hiddenTree
            (fun _ => FileResult.parsed sampleCode rootA)).calls "main"
    ∧ (⟨"helper", "r" ++ "/" ++ ".hid.c", 3, 5⟩ : CallSite)
        ∈ aget (analyzeTree "r" hiddenTree
            (fun _ => FileResult.parsed sampleCode rootA)).call_sites "main" :=
  ⟨by decide, rfl, by decide, by decide, by decide, by decide, by decide,
    (claim_C10_hidden_files "r" hiddenTree "r" [] ".hid.c"
      (fun _ => FileResult.parsed sampleCode rootA) "helper"
      ⟨"r" ++ "/" ++ ".hid.c", 1, 1⟩ "main" "helper"
      ⟨"helper", "r" ++ "/" ++ ".hid.c", 3, 5⟩ (by decide) rfl (by decide)
      (by decide) (by decide) (by decide) (by decide)).1,
    (claim_C10_hidden_files "r" hiddenTree "r" [] ".hid.c"
      (fun _ => FileResult.parsed sampleCode rootA) "helper"
      ⟨"r" ++ "/" ++ ".hid.c", 1, 1⟩ "main" "helper"
      ⟨"helper", "r" ++ "/" ++ ".hid.c", 3, 5⟩ (by decide) rfl (by decide)
      (by decide) (by decide) (by decide) (by decide)).2.1,
    (claim_C10_hidden_files "r" hiddenTree "r" [] ".hid.c"
      (fun _ => FileResult.parsed sampleCode rootA) "helper"
      ⟨"r" ++ "/" ++ ".hid.c", 1, 1⟩ "main" "helper"
      ⟨"helper", "r" ++ "/" ++ ".hid.c", 3, 5⟩ (by decide) rfl (by decide)
      (by decide) (by decide) (by decide) (by decide)).2.2.1,
    (claim_C10_hidden_files "r" hiddenTree "r" [] ".hid.c"
      (fun _ => FileResult.parsed sampleCode rootA) "helper"
      ⟨"r" ++ "/" ++ ".hid.c", 1, 1⟩ "main" "helper"
      ⟨"helper", "r" ++ "/" ++ ".hid.c", 3, 5⟩ (by decide) rfl (by decide)
      (by decide) (by decide) (by decide) (by decide)).2.2.2⟩
